import Mathlib

/-!
Shallow embedding of the SimpleAllocator chunked arena allocator
(`src/allocator.h`): `Allocator_cache` (one chunk), the homogeneous
`Allocator<Object>` and the heterogeneous `Generic_allocator`, with their
`create` / `clear` operations, together with theorems checking the
natural-language specification against this embedding.

Modelling conventions ("the pointer arithmetic is kept as offsets"):
  * A chunk's raw addresses `start`, `cursor`, `end` are represented by the
    pair `used = cursor - start` and `capacity = end - start`; `cursor` is
    only ever assigned `start` (constructor, end of `clear`) or advanced, so
    this offset representation is faithful.  Address-level views are
    recovered by `startAddr`, `cursorAddr`, `endAddr` below.
  * The `previous` pointers of the caches form the chain, modelled as a
    `List`: the head is `cache` (the current chunk), each element's
    `previous` points to the next element, and the last element is the
    chunk whose `previous` is the null pointer.  The Boolean field
    `prevNull` records the value `previous == nullptr` exactly as assigned
    by `Allocator_cache`'s constructor (true only when constructed with the
    default `old = nullptr`); that it coincides with being the last element
    of the chain is part of the verified invariant.
  * The objects living in a chunk are the list `slots`, in construction
    order: in the homogeneous allocator the i-th object sits at offset
    `i * sizeof_obj` from `start`; in the generic allocator each slot is a
    pair `(sizeof_obj, value)` whose `Obj_wrapper` header sits at the offset
    reached by summing `sizeof_wrapper + sizeof_obj` over the earlier slots.
    The byte strides (`sizeof(T) + alignof(T)`, and
    `sizeof(Obj_wrapper) + alignof(Obj_wrapper)`) are platform constants and
    appear as explicit parameters `stride` / `wsz` / `objsz`.
  * `throw_or_abort (std::bad_alloc())` is modelled by the error value
    `AllocErr.badAlloc`; since in the source both size checks precede any
    mutation, the embedding returns the unchanged state with the error.
-/

namespace SimpleAllocator

/-- The single error the allocator signals (`throw_or_abort (std::bad_alloc())`). -/
inductive AllocErr : Type where
  | badAlloc : AllocErr
deriving DecidableEq, Repr

/-- One chunk (`class Allocator_cache`), specialised by the type `α` of the
slot records stored in it.  `capacity = end - start`, `used = cursor - start`,
`prevNull = (previous == nullptr)` as assigned at construction, `slots` the
live objects in construction order. -/
structure Allocator_cache (α : Type) : Type where
  capacity : Nat
  used : Nat
  prevNull : Bool
  slots : List α
deriving DecidableEq, Repr

namespace Allocator_cache

/-- A freshly constructed chunk: `cursor = start`, no live objects.
`pn` is whether the `old` argument of `Allocator_cache::construct` was the
null pointer (true for the chunk made by the arena constructors, false for
growth chunks, which always pass the current non-null `cache`). -/
def fresh (α : Type) (cap : Nat) (pn : Bool) : Allocator_cache α :=
  ⟨cap, 0, pn, []⟩

/-- Address view of `start` given the base address of the usable area. -/
def startAddr (_c : Allocator_cache α) (base : Nat) : Nat := base

/-- Address view of `cursor`. -/
def cursorAddr (c : Allocator_cache α) (base : Nat) : Nat := base + c.used

/-- Address view of `end`. -/
def endAddr (c : Allocator_cache α) (base : Nat) : Nat := base + c.capacity

/-- `Allocator_cache::construct (sizeof_cache, old)` with the system
allocator's reply made explicit: `mallocResult = none` models `malloc`
returning the null pointer (`some a` a successful block at address `a`).
The source performs a single `malloc (sizeof_cache + sizeof_this)` — it
never retries and never shrinks the request — and never inspects the
result: when `malloc` yields null, the placement new-expression produces
the null pointer without running the constructor, and that null chunk
pointer is returned to the caller unannounced. -/
def construct (α : Type) (mallocResult : Option Nat) (sizeofCache : Nat)
    (oldIsNull : Bool) : Option (Allocator_cache α) :=
  mallocResult.map fun _addr => ⟨sizeofCache, 0, oldIsNull, []⟩

end Allocator_cache

/-- The arena state shared by both variants (`Allocator_base`):
`cacheSize` is the `cache_size` member (in-class initializer 2048), `chain`
the caches reachable from `cache` through `previous`, current chunk first,
oldest chunk last. -/
structure AllocState (α : Type) : Type where
  cacheSize : Nat
  chain : List (Allocator_cache α)
deriving DecidableEq, Repr

/-- Total number of live (constructed, not yet destructed) objects. -/
def liveCount (s : AllocState α) : Nat :=
  (s.chain.map fun c => c.slots.length).sum

/-- A pointer to an allocated object, as stable coordinates: chunk index
counted from the oldest chunk, and slot index within that chunk. -/
abbrev SlotPtr : Type := Nat × Nat

/-- Dereference a `SlotPtr`: chunk `i` counted from the oldest end of the
chain, slot `j` within it. -/
def readSlot (s : AllocState α) (p : SlotPtr) : Option α :=
  (s.chain.reverse[p.1]?).bind fun c => c.slots[p.2]?

namespace Allocator

/-- `Allocator<Object>::Allocator()` (and `Generic_allocator`'s constructor
is `Generic_allocator.init` below): no capacity argument exists, the single
initial chunk is built with the in-class default `cache_size = 2048`. -/
def init (α : Type) : AllocState α :=
  ⟨2048, [Allocator_cache.fresh α 2048 true]⟩

/-- `Allocator<Object>::create (args...)`, with
`stride = sizeof_obj = sizeof(Object) + alignof(Object)` and the freshly
constructed value `v`.  Returns the state after the call and either the
pointer to the new object or the `bad_alloc` error; on error the state is
the unchanged input, mirroring that both checks precede every mutation in
the source.  The empty-chain case is unreachable (`cache` is never null). -/
def create (stride : Nat) (v : α) (s : AllocState α) :
    AllocState α × Except AllocErr SlotPtr :=
  if stride > s.cacheSize then (s, .error .badAlloc)
  else
    match s.chain with
    | [] => (s, .error .badAlloc)
    | c :: rest =>
      if c.used + stride ≥ c.capacity then
        -- cache = Allocator_cache::construct (cache_size, cache)
        let cNew : Allocator_cache α := ⟨s.cacheSize, stride, false, [v]⟩
        (⟨s.cacheSize, cNew :: c :: rest⟩, .ok (rest.length + 1, 0))
      else
        (⟨s.cacheSize, { c with used := c.used + stride, slots := c.slots ++ [v] } :: rest⟩,
          .ok (rest.length, c.slots.length))

/-- `create` iterated `n` times (discarding the returned pointers). -/
def createMany (stride : Nat) (n : Nat) (v : α) (s : AllocState α) : AllocState α :=
  match n with
  | 0 => s
  | n + 1 => createMany stride n v (create stride v s).1

end Allocator

/-- The loop of `Allocator<Object>::clear()` / `Generic_allocator::clear()`,
walking the chain from the current chunk: destruct the live objects of the
chunk in ascending address order (= construction order, the list `slots`),
then, if `previous` is null (the chunk is the last of the chain), stop and
rewind that chunk's cursor; otherwise `Allocator_cache::destruct` (free)
the chunk and continue at `previous`.  Returns the destruction events in
order, the number of freed chunks, and the remaining chain.  The
empty-chain case is unreachable (`cache` is never null). -/
def clearLoop : List (Allocator_cache α) → List α × Nat × List (Allocator_cache α)
  | [] => ([], 0, [])
  | [c] => (c.slots, 0, [{ c with used := 0, slots := [] }])
  | c :: c2 :: rest =>
    let r := clearLoop (c2 :: rest)
    (c.slots ++ r.1, r.2.1 + 1, r.2.2)

/-- `Allocator<Object>::clear()`: destruction events in order, number of
chunks freed, and the arena state after the call. -/
def Allocator.clear (s : AllocState α) : List α × Nat × AllocState α :=
  let r := clearLoop s.chain
  (r.1, r.2.1, ⟨s.cacheSize, r.2.2⟩)

/-- `Allocator<Object>::~Allocator()`: the destructor body is exactly
`clear()`; nothing further is freed before the arena object itself goes
away, so the chain remaining after `clear` stays allocated. -/
def Allocator.destroy (s : AllocState α) : List α × Nat × AllocState α :=
  Allocator.clear s

namespace Generic_allocator

/-- `Generic_allocator::Generic_allocator()`: same body as the homogeneous
constructor; slots carry their recorded `sizeof_obj` header field. -/
def init (α : Type) : AllocState (Nat × α) :=
  ⟨2048, [Allocator_cache.fresh (Nat × α) 2048 true]⟩

/-- `Generic_allocator::create<Object> (args...)`, with
`wsz = sizeof_wrapper = sizeof(Obj_wrapper) + alignof(Obj_wrapper)` and
`objsz = sizeof(Object) + alignof(Object)`.  The slot record keeps the
`Obj_wrapper` header's `sizeof_obj` byte together with the value. -/
def create (wsz objsz : Nat) (v : α) (s : AllocState (Nat × α)) :
    AllocState (Nat × α) × Except AllocErr SlotPtr :=
  if wsz + objsz > s.cacheSize then (s, .error .badAlloc)
  else
    match s.chain with
    | [] => (s, .error .badAlloc)
    | c :: rest =>
      if c.used + (wsz + objsz) ≥ c.capacity then
        let cNew : Allocator_cache (Nat × α) :=
          ⟨s.cacheSize, wsz + objsz, false, [(objsz, v)]⟩
        (⟨s.cacheSize, cNew :: c :: rest⟩, .ok (rest.length + 1, 0))
      else
        (⟨s.cacheSize,
            { c with used := c.used + (wsz + objsz),
                     slots := c.slots ++ [(objsz, v)] } :: rest⟩,
          .ok (rest.length, c.slots.length))

/-- `Generic_allocator::clear()`: the walk inside one chunk reads each
`Obj_wrapper` header to find the slot's extent (`pos += sizeof_wrapper +
obj_wrapper->sizeof_obj`) and destructs the slots in the same ascending
order as the homogeneous variant, so on the slot-list representation the
loop coincides with `clearLoop`. -/
def clear (s : AllocState (Nat × α)) : List (Nat × α) × Nat × AllocState (Nat × α) :=
  Allocator.clear s

/-- `Generic_allocator::~Generic_allocator()`: the body is exactly `clear()`. -/
def destroy (s : AllocState (Nat × α)) : List (Nat × α) × Nat × AllocState (Nat × α) :=
  clear s

end Generic_allocator

/-- The compile-time guard in `Obj_wrapper`'s constructor:
`static_assert (sizeof(Obj) + alignof(Obj) <= numeric_limits of uint8_t, ...)`.
This check exists only at template-instantiation (compile) time; no
corresponding run-time check appears in `Generic_allocator::create`. -/
def Obj_wrapper.staticAssertOk (sizeofObj alignofObj : Nat) : Bool :=
  sizeofObj + alignofObj ≤ 255

/-- Chain shape: nonempty, the last chunk (the oldest, the one the arena
constructor built) is the single one whose `previous` is null, every chunk
in front of it was built by growth with a non-null `old`. -/
def chainShapeOK : List (Allocator_cache α) → Bool
  | [] => false
  | [c] => c.prevNull
  | c :: c2 :: rest => !c.prevNull && chainShapeOK (c2 :: rest)

/-- States reachable from the homogeneous constructor by `create` and
`clear` calls (the full public interface of `Allocator<Object>`). -/
inductive Allocator.Reach (stride : Nat) : AllocState α → Prop where
  | init : Allocator.Reach stride (Allocator.init α)
  | create (v : α) {s : AllocState α} :
      Allocator.Reach stride s → Allocator.Reach stride (Allocator.create stride v s).1
  | clear {s : AllocState α} :
      Allocator.Reach stride s → Allocator.Reach stride (Allocator.clear s).2.2

/-- States reachable from the generic constructor by `create` (of objects of
arbitrary sizes) and `clear` calls. -/
inductive Generic_allocator.Reach (wsz : Nat) : AllocState (Nat × α) → Prop where
  | init : Generic_allocator.Reach wsz (Generic_allocator.init α)
  | create (objsz : Nat) (v : α) {s : AllocState (Nat × α)} :
      Generic_allocator.Reach wsz s →
      Generic_allocator.Reach wsz (Generic_allocator.create wsz objsz v s).1
  | clear {s : AllocState (Nat × α)} :
      Generic_allocator.Reach wsz s →
      Generic_allocator.Reach wsz (Generic_allocator.clear s).2.2

/-- Spec-side constructor, for refinement comparison only.  Modelled from
the spec's words: `Arena(capacity: size = default)` constructs an arena
whose single initial chunk has usable capacity exactly the requested `c`,
and whose configured `chunk_capacity` is `c`. -/
def arenaInitSpec (α : Type) (c : Nat) : AllocState α :=
  ⟨c, [Allocator_cache.fresh α c true]⟩

/-! ## Helper lemmas -/

/-- `Generic_allocator::create` is, slot for slot, the homogeneous `create`
run at stride `sizeof_wrapper + sizeof_obj` on slot records carrying the
header byte: the two source bodies differ only in those constants. -/
theorem Generic_allocator.create_eq_create (wsz objsz : Nat) (v : α)
    (s : AllocState (Nat × α)) :
    Generic_allocator.create wsz objsz v s =
      Allocator.create (wsz + objsz) (objsz, v) s := by
  unfold Generic_allocator.create Allocator.create
  rcases s with ⟨cs, chain⟩
  cases chain <;> rfl

theorem clearLoop_events (ch : List (Allocator_cache α)) :
    (clearLoop ch).1 = (ch.map fun c => c.slots).flatten := by
  induction ch with
  | nil => rfl
  | cons c rest ih =>
    cases rest with
    | nil => simp [clearLoop]
    | cons c2 rest2 => simp [clearLoop, ih]

theorem clearLoop_state_getLast (ch : List (Allocator_cache α))
    (cl : Allocator_cache α) (h : ch.getLast? = some cl) :
    (clearLoop ch).2.2 = [{ cl with used := 0, slots := [] }] := by
  induction ch with
  | nil => simp at h
  | cons c rest ih =>
    cases rest with
    | nil =>
      simp [List.getLast?] at h
      subst h; rfl
    | cons c2 rest2 =>
      rw [List.getLast?_cons_cons] at h
      simpa [clearLoop] using ih h

theorem clearLoop_slots_nil (ch : List (Allocator_cache α)) :
    ∀ c ∈ (clearLoop ch).2.2, c.used = 0 ∧ c.slots = [] := by
  induction ch with
  | nil => simp [clearLoop]
  | cons c rest ih =>
    cases rest with
    | nil => simp [clearLoop]
    | cons c2 rest2 => simpa [clearLoop] using ih

theorem chainShapeOK_ne_nil {ch : List (Allocator_cache α)}
    (h : chainShapeOK ch = true) : ch ≠ [] := by
  intro hnil; subst hnil; simp [chainShapeOK] at h

theorem chainShapeOK_getLast {ch : List (Allocator_cache α)}
    (h : chainShapeOK ch = true) {cl : Allocator_cache α}
    (hl : ch.getLast? = some cl) : cl.prevNull = true := by
  induction ch with
  | nil => simp at hl
  | cons c rest ih =>
    cases rest with
    | nil =>
      simp [List.getLast?] at hl
      simp [chainShapeOK] at h
      subst hl; exact h
    | cons c2 rest2 =>
      rw [List.getLast?_cons_cons] at hl
      simp only [chainShapeOK, Bool.and_eq_true] at h
      exact ih h.2 hl

theorem chainShapeOK_countP {ch : List (Allocator_cache α)}
    (h : chainShapeOK ch = true) :
    ch.countP (fun c => c.prevNull) = 1 := by
  induction ch with
  | nil => simp [chainShapeOK] at h
  | cons c rest ih =>
    cases rest with
    | nil =>
      simp [chainShapeOK] at h
      simp [List.countP_cons, h]
    | cons c2 rest2 =>
      simp only [chainShapeOK, Bool.and_eq_true] at h
      rw [List.countP_cons]
      have hc : c.prevNull = false := by
        cases hcp : c.prevNull
        · rfl
        · rw [hcp] at h; simp at h
      simp [ih h.2, hc]

/-- Replacing the head of a chain by one with the same `previous`
null-ness does not change its shape. -/
theorem chainShapeOK_cons_congr {c c' : Allocator_cache α}
    (hp : c'.prevNull = c.prevNull) (rest : List (Allocator_cache α)) :
    chainShapeOK (c' :: rest) = chainShapeOK (c :: rest) := by
  cases rest <;> simp [chainShapeOK, hp]

/-- `chainShapeOK_cons_congr` in the form used by the step lemmas. -/
theorem chainShapeOK_cons_of {c c' : Allocator_cache α}
    {rest : List (Allocator_cache α)}
    (h : chainShapeOK (c :: rest) = true)
    (hp : c'.prevNull = c.prevNull) :
    chainShapeOK (c' :: rest) = true := by
  rw [chainShapeOK_cons_congr hp]; exact h

/-- `create` on an (unreachable) empty chain reports the error and leaves
the state unchanged. -/
theorem Allocator.create_nil (stride : Nat) (v : α) (cs : Nat) :
    Allocator.create stride v (⟨cs, []⟩ : AllocState α) =
      ((⟨cs, []⟩ : AllocState α), .error .badAlloc) := by
  simp only [Allocator.create]
  split <;> rfl

theorem Allocator.create_shape (stride : Nat) (v : α) (s : AllocState α)
    (h : chainShapeOK s.chain = true) :
    chainShapeOK (Allocator.create stride v s).1.chain = true := by
  rcases s with ⟨cs, chain⟩
  cases chain with
  | nil => simp [chainShapeOK] at h
  | cons c rest =>
    simp only [Allocator.create]
    split
    · exact h
    · split
      · simpa [chainShapeOK] using h
      · exact chainShapeOK_cons_of h rfl

theorem Allocator.create_bounds (stride : Nat) (v : α) (s : AllocState α)
    (h : ∀ c ∈ s.chain, c.used ≤ c.capacity) :
    ∀ c ∈ (Allocator.create stride v s).1.chain, c.used ≤ c.capacity := by
  rcases s with ⟨cs, chain⟩
  cases chain with
  | nil => rw [Allocator.create_nil]; exact h
  | cons c rest =>
    simp only [Allocator.create]
    split
    next hgt => simpa using h
    next hgt =>
      have hle : stride ≤ cs := Nat.le_of_not_lt hgt
      split
      next hge =>
        intro c' hc'
        rcases List.mem_cons.mp hc' with h1 | h2
        · subst h1; exact hle
        · exact h c' h2
      next hge =>
        have hlt : c.used + stride < c.capacity := Nat.lt_of_not_le hge
        intro c' hc'
        rcases List.mem_cons.mp hc' with h1 | h2
        · subst h1; exact Nat.le_of_lt hlt
        · exact h c' (List.mem_cons_of_mem _ h2)

theorem Allocator.create_usedmul (stride : Nat) (v : α) (s : AllocState α)
    (h : ∀ c ∈ s.chain, c.used = stride * c.slots.length) :
    ∀ c ∈ (Allocator.create stride v s).1.chain,
      c.used = stride * c.slots.length := by
  rcases s with ⟨cs, chain⟩
  cases chain with
  | nil => rw [Allocator.create_nil]; exact h
  | cons c rest =>
    simp only [Allocator.create]
    split
    next hgt => exact h
    next hgt =>
      split
      next hge =>
        intro c' hc'
        rcases List.mem_cons.mp hc' with h1 | h2
        · subst h1; simp
        · exact h c' h2
      next hge =>
        intro c' hc'
        rcases List.mem_cons.mp hc' with h1 | h2
        · subst h1
          have hu := h c (List.mem_cons_self _ _)
          show c.used + stride = stride * (c.slots ++ [v]).length
          rw [List.length_append, List.length_singleton, hu]
          exact (Nat.mul_succ _ _).symm
        · exact h c' (List.mem_cons_of_mem _ h2)

theorem Allocator.clear_shape (s : AllocState α) (h : chainShapeOK s.chain = true) :
    chainShapeOK (Allocator.clear s).2.2.chain = true := by
  have hne : s.chain ≠ [] := chainShapeOK_ne_nil h
  have hsome : s.chain.getLast?.isSome := List.getLast?_isSome.mpr hne
  obtain ⟨cl, hcl⟩ := Option.isSome_iff_exists.mp hsome
  have hstate : (Allocator.clear s).2.2.chain = [{ cl with used := 0, slots := [] }] :=
    clearLoop_state_getLast s.chain cl hcl
  rw [hstate]
  simpa [chainShapeOK] using chainShapeOK_getLast h hcl

theorem Allocator.clear_slots_nil (s : AllocState α) :
    ∀ c ∈ (Allocator.clear s).2.2.chain, c.used = 0 ∧ c.slots = [] :=
  clearLoop_slots_nil s.chain

/-- The inductive invariant of the homogeneous allocator: well-shaped chain,
cursor within bounds in every chunk, and a cursor displacement that is the
slot count times the fixed stride (this last fact is what makes the
`pos != cache->cursor; pos += sizeof_obj` walk of `clear` visit exactly the
live objects). -/
def Allocator.Inv (stride : Nat) (s : AllocState α) : Prop :=
  chainShapeOK s.chain = true ∧
    ∀ c ∈ s.chain, c.used ≤ c.capacity ∧ c.used = stride * c.slots.length

theorem Allocator.typed_inv_of_reach {stride : Nat} {s : AllocState α}
    (h : Allocator.Reach stride s) : Allocator.Inv stride s := by
  induction h with
  | init =>
    refine ⟨rfl, ?_⟩
    intro c hc
    simp only [Allocator.init, Allocator_cache.fresh, List.mem_singleton] at hc
    subst hc
    exact ⟨Nat.zero_le _, rfl⟩
  | create v hr ih =>
    refine ⟨Allocator.create_shape _ _ _ ih.1, ?_⟩
    intro c hc
    exact ⟨Allocator.create_bounds _ _ _ (fun c' hc' => (ih.2 c' hc').1) c hc,
      Allocator.create_usedmul _ _ _ (fun c' hc' => (ih.2 c' hc').2) c hc⟩
  | clear hr ih =>
    refine ⟨Allocator.clear_shape _ ih.1, ?_⟩
    intro c hc
    have := Allocator.clear_slots_nil _ c hc
    simp [this.1, this.2]

theorem Generic_allocator.create_usedsum (wsz objsz : Nat) (v : α)
    (g : AllocState (Nat × α))
    (h : ∀ c ∈ g.chain, c.used = (c.slots.map fun p => wsz + p.1).sum) :
    ∀ c ∈ (Generic_allocator.create wsz objsz v g).1.chain,
      c.used = (c.slots.map fun p => wsz + p.1).sum := by
  rw [Generic_allocator.create_eq_create]
  rcases g with ⟨cs, chain⟩
  cases chain with
  | nil => rw [Allocator.create_nil]; exact h
  | cons c rest =>
    simp only [Allocator.create]
    split
    next hgt => exact h
    next hgt =>
      split
      next hge =>
        intro c' hc'
        rcases List.mem_cons.mp hc' with h1 | h2
        · subst h1
          show wsz + objsz = (List.map (fun p => wsz + p.1) [(objsz, v)]).sum
          simp
        · exact h c' h2
      next hge =>
        intro c' hc'
        rcases List.mem_cons.mp hc' with h1 | h2
        · subst h1
          have hu := h c (List.mem_cons_self _ _)
          show c.used + (wsz + objsz) =
            ((c.slots ++ [(objsz, v)]).map fun p => wsz + p.1).sum
          rw [List.map_append, List.sum_append, ← hu]
          simp
        · exact h c' (List.mem_cons_of_mem _ h2)

/-- The inductive invariant of the generic allocator: well-shaped chain,
cursor within bounds, and a cursor displacement equal to the sum of
`sizeof_wrapper + sizeof_obj` over the chunk's slots (what makes the
header-following walk of `Generic_allocator::clear` visit exactly the live
objects). -/
def Generic_allocator.Inv (wsz : Nat) (g : AllocState (Nat × α)) : Prop :=
  chainShapeOK g.chain = true ∧
    ∀ c ∈ g.chain, c.used ≤ c.capacity ∧
      c.used = (c.slots.map fun p => wsz + p.1).sum

theorem Generic_allocator.generic_inv_of_reach {wsz : Nat} {g : AllocState (Nat × α)}
    (h : Generic_allocator.Reach wsz g) : Generic_allocator.Inv wsz g := by
  induction h with
  | init =>
    refine ⟨rfl, ?_⟩
    intro c hc
    simp only [Generic_allocator.init, Allocator_cache.fresh, List.mem_singleton] at hc
    subst hc
    exact ⟨Nat.zero_le _, rfl⟩
  | create objsz v hr ih =>
    refine ⟨?_, ?_⟩
    · rw [Generic_allocator.create_eq_create]
      exact Allocator.create_shape _ _ _ ih.1
    · intro c hc
      refine ⟨?_, Generic_allocator.create_usedsum _ _ _ _
        (fun c' hc' => (ih.2 c' hc').2) c hc⟩
      rw [Generic_allocator.create_eq_create] at hc
      exact Allocator.create_bounds _ _ _ (fun c' hc' => (ih.2 c' hc').1) c hc
  | clear hr ih =>
    refine ⟨Allocator.clear_shape _ ih.1, ?_⟩
    intro c hc
    have := Allocator.clear_slots_nil _ c hc
    simp [this.1, this.2]

/-- Shared form of the reset contract (claim C2), over an arbitrary slot
type, so it covers both the homogeneous and the generic `clear`. -/
theorem clear_events_spec (s : AllocState α) :
    (Allocator.clear s).1 = (s.chain.map fun c => c.slots).flatten ∧
    (Allocator.clear s).1.length = liveCount s ∧
    liveCount (Allocator.clear s).2.2 = 0 := by
  refine ⟨clearLoop_events s.chain, ?_, ?_⟩
  · rw [show (Allocator.clear s).1 = (clearLoop s.chain).1 from rfl, clearLoop_events,
      List.length_flatten, List.map_map]
    rfl
  · have hnil := clearLoop_slots_nil s.chain
    show ((Allocator.clear s).2.2.chain.map fun c => c.slots.length).sum = 0
    apply List.sum_eq_zero
    intro x hx
    rw [List.mem_map] at hx
    obtain ⟨c, hc, hcx⟩ := hx
    rw [← hcx, (hnil c hc).2]
    rfl

/-- Shared form of the double-reset behaviour (claim C10), over an
arbitrary slot type. -/
theorem clear_clear_spec (s : AllocState α) (h : chainShapeOK s.chain = true) :
    Allocator.clear (Allocator.clear s).2.2 = ([], 0, (Allocator.clear s).2.2) ∧
    (Allocator.clear s).2.2.chain.length = 1 ∧
    ∀ c ∈ (Allocator.clear s).2.2.chain,
      c.used = 0 ∧ c.slots = [] ∧ c.prevNull = true := by
  obtain ⟨cl, hcl⟩ :=
    Option.isSome_iff_exists.mp (List.getLast?_isSome.mpr (chainShapeOK_ne_nil h))
  have hstate : (Allocator.clear s).2.2 =
      ⟨s.cacheSize, [{ cl with used := 0, slots := [] }]⟩ := by
    show (⟨s.cacheSize, (clearLoop s.chain).2.2⟩ : AllocState α) = _
    rw [clearLoop_state_getLast s.chain cl hcl]
  have hpn : cl.prevNull = true := chainShapeOK_getLast h hcl
  refine ⟨?_, by rw [hstate]; rfl, ?_⟩
  · rw [hstate]; rfl
  · intro c hc
    rw [hstate] at hc
    simp only [List.mem_singleton] at hc
    subst hc
    exact ⟨rfl, rfl, hpn⟩

/-- The frame property of a successful homogeneous `create` (claim C9),
also used at stride `wsz + objsz` for the generic variant: every previously
readable slot reads back unchanged, the returned pointer reads the new
value, and the `start`/`end`/`previous` data (capacity and previous
null-ness, with chunks identified by their position from the oldest end,
which never changes) of every pre-existing chunk are untouched. -/
theorem Allocator.create_frame (stride : Nat) (v : α) {s s2 : AllocState α} {p : SlotPtr}
    (h : Allocator.create stride v s = (s2, .ok p)) :
    (∀ r x, readSlot s r = some x → readSlot s2 r = some x) ∧
    readSlot s2 p = some v ∧
    ∀ i < s.chain.length,
      (s2.chain.reverse[i]?).map (fun c => (c.capacity, c.prevNull)) =
        (s.chain.reverse[i]?).map (fun c => (c.capacity, c.prevNull)) := by
  rcases s with ⟨cs, chain⟩
  cases chain with
  | nil =>
    rw [Allocator.create_nil] at h
    exact absurd (congrArg Prod.snd h) (by simp)
  | cons c rest =>
    simp only [Allocator.create] at h
    by_cases hgt : stride > cs
    · rw [if_pos hgt] at h
      exact absurd (congrArg Prod.snd h) (by simp)
    rw [if_neg hgt] at h
    by_cases hge : c.used + stride ≥ c.capacity
    · -- growth: a fresh chunk is prepended, nothing else is touched
      rw [if_pos hge] at h
      have hs2 : s2 = ⟨cs, (⟨cs, stride, false, [v]⟩ : Allocator_cache α) :: c :: rest⟩ :=
        (congrArg Prod.fst h).symm
      have hp : p = (rest.length + 1, 0) := by
        have := congrArg Prod.snd h
        simpa using this.symm
      subst hs2; subst hp
      have hrev : ((⟨cs, stride, false, [v]⟩ : Allocator_cache α) :: c :: rest).reverse
          = (c :: rest).reverse ++ [⟨cs, stride, false, [v]⟩] := List.reverse_cons _ _
      refine ⟨?_, ?_, ?_⟩
      · intro r x hr
        simp only [readSlot] at hr ⊢
        obtain ⟨ch, hch, hslot⟩ := Option.bind_eq_some.mp hr
        have hlt : r.1 < (c :: rest).reverse.length :=
          (List.getElem?_eq_some_iff.mp hch).1
        rw [hrev, List.getElem?_append_left hlt, hch]
        simpa using hslot
      · simp only [readSlot, hrev]
        have hlen : (c :: rest).reverse.length = rest.length + 1 := by
          simp [List.length_reverse]
        rw [show rest.length + 1 = (c :: rest).reverse.length from hlen.symm,
          List.getElem?_concat_length]
        rfl
      · intro i hi
        rw [hrev, List.getElem?_append_left (by simpa using hi)]
    · -- no growth: only the current chunk's cursor/slots advance
      rw [if_neg hge] at h
      have hs2 : s2 = ⟨cs,
          { c with used := c.used + stride, slots := c.slots ++ [v] } :: rest⟩ :=
        (congrArg Prod.fst h).symm
      have hp : p = (rest.length, c.slots.length) := by
        have := congrArg Prod.snd h
        simpa using this.symm
      subst hs2; subst hp
      have hrev : ({ c with used := c.used + stride, slots := c.slots ++ [v] } :: rest).reverse
          = rest.reverse ++ [{ c with used := c.used + stride, slots := c.slots ++ [v] }] :=
        List.reverse_cons _ _
      have hrevold : (c :: rest).reverse = rest.reverse ++ [c] := List.reverse_cons _ _
      have hlenr : rest.reverse.length = rest.length := List.length_reverse rest
      refine ⟨?_, ?_, ?_⟩
      · intro r x hr
        simp only [readSlot] at hr ⊢
        obtain ⟨ch, hch, hslot⟩ := Option.bind_eq_some.mp hr
        have hibound : r.1 < rest.length + 1 := by
          have := (List.getElem?_eq_some_iff.mp hch).1
          simpa [hrevold, hlenr] using this
        rcases Nat.lt_or_ge r.1 rest.length with hlt | hge2
        · rw [hrevold, List.getElem?_append_left (by omega)] at hch
          rw [hrev, List.getElem?_append_left (by omega), hch]
          simpa using hslot
        · have hieq : r.1 = rest.length := by omega
          rw [hrevold, hieq, show rest.length = rest.reverse.length from hlenr.symm,
            List.getElem?_concat_length] at hch
          have hcc : ch = c := by injection hch with hch; exact hch.symm
          subst hcc
          rw [hrev, hieq, show rest.length = rest.reverse.length from hlenr.symm,
            List.getElem?_concat_length]
          have hjlt : r.2 < ch.slots.length := (List.getElem?_eq_some_iff.mp hslot).1
          simp only [Option.some_bind]
          show (ch.slots ++ [v])[r.2]? = some x
          rw [List.getElem?_append_left hjlt]
          exact hslot
      · simp only [readSlot, hrev]
        rw [show rest.length = rest.reverse.length from hlenr.symm,
          List.getElem?_concat_length]
        simp only [Option.some_bind]
        show (c.slots ++ [v])[c.slots.length]? = some v
        exact List.getElem?_concat_length _ _
      · intro i hi
        have hibound : i < rest.length + 1 := by simpa using hi
        rcases Nat.lt_or_ge i rest.length with hlt | hge2
        · rw [hrev, hrevold, List.getElem?_append_left (by omega),
            List.getElem?_append_left (by omega)]
        · have hieq : i = rest.length := by omega
          rw [hrev, hrevold, hieq, show rest.length = rest.reverse.length from hlenr.symm,
            List.getElem?_concat_length, List.getElem?_concat_length]
          rfl

/-! ## Claim theorems -/

set_option maxRecDepth 20000 in
/-- Claim C1, counterexample.  The claim predicts growth only on the strict
condition `cursor + stride > end`, so with the 2048-byte default chunk and
stride 8 (an `int` on LP64: `sizeof 4 + alignof 4`), which fits exactly
K = 256 objects, the first 256 `create` calls should stay in the first
chunk.  The source tests `cache->cursor + sizeof_obj >= cache->end`: the
256-th call is an exact fit (`cursor + stride == end`) and already creates
a second chunk — after 256 calls the chain has two chunks, not one. -/
theorem c1_counterexample :
    (Allocator.createMany 8 256 () (Allocator.init Unit)).chain.length = 2 ∧
    (Allocator.createMany 8 256 () (Allocator.init Unit)).chain.length ≠ 1 := by
  decide

set_option maxRecDepth 20000 in
/-- Claim C1, amended.  A new chunk is created exactly when
`cursor + stride ≥ end` (weak inequality: an exact fit already grows), so
with a chunk capacity holding exactly K objects only the first K − 1
`create` calls stay in the first chunk and the K-th call creates a new
chunk — concretely, at the default capacity 2048 with stride 8 (K = 256),
255 calls leave one chunk and the 256-th creates the second. -/
theorem c1_growth_on_weak_inequality (stride : Nat) (v : α) (s : AllocState α)
    (c : Allocator_cache α) (rest : List (Allocator_cache α))
    (hchain : s.chain = c :: rest) (hstride : stride ≤ s.cacheSize) :
    ((Allocator.create stride v s).1.chain.length = s.chain.length + 1 ↔
      c.capacity ≤ c.used + stride) ∧
    (Allocator.createMany 8 255 () (Allocator.init Unit)).chain.length = 1 ∧
    (Allocator.createMany 8 256 () (Allocator.init Unit)).chain.length = 2 := by
  refine ⟨?_, by decide, by decide⟩
  simp only [Allocator.create, hchain]
  rw [if_neg (by omega)]
  constructor
  · intro hlen
    by_contra hge
    rw [if_neg (by omega)] at hlen
    simp at hlen
  · intro hge
    rw [if_pos (by omega)]
    simp

/-- Witness for `c1_growth_on_weak_inequality` at the freshly constructed
arena and stride 8: no growth happens there (2048 ≤ 0 + 8 is false). -/
theorem c1_witness :
    ((Allocator.create 8 () (Allocator.init Unit)).1.chain.length =
        (Allocator.init Unit).chain.length + 1 ↔ 2048 ≤ 0 + 8) ∧
      (Allocator.createMany 8 255 () (Allocator.init Unit)).chain.length = 1 ∧
      (Allocator.createMany 8 256 () (Allocator.init Unit)).chain.length = 2 :=
  c1_growth_on_weak_inequality 8 () (Allocator.init Unit)
    (Allocator_cache.fresh Unit 2048 true) [] rfl (by decide)

/-- Claim C2.  `clear` of either variant destructs exactly the live
objects, in the order: all slots of the most recent chunk first (the chain
head), then older chunks, and within one chunk in construction order —
this is literally the flattening of the chunks' slot lists.  Consequently
a live-instance counter equal to `liveCount` before the call sees exactly
that many destructor invocations and the arena holds zero live objects
afterwards. -/
theorem c2_clear_destructs_each_once_in_order (s : AllocState α)
    (g : AllocState (Nat × β)) :
    ((Allocator.clear s).1 = (s.chain.map fun c => c.slots).flatten ∧
      (Allocator.clear s).1.length = liveCount s ∧
      liveCount (Allocator.clear s).2.2 = 0) ∧
    ((Generic_allocator.clear g).1 = (g.chain.map fun c => c.slots).flatten ∧
      (Generic_allocator.clear g).1.length = liveCount g ∧
      liveCount (Generic_allocator.clear g).2.2 = 0) :=
  ⟨clear_events_spec s, clear_events_spec g⟩

/-- Claim C3.  A type whose conservative slot size exceeds the configured
capacity (`sizeof_obj > cache_size`, and `sizeof_wrapper + sizeof_obj >
cache_size` in the generic variant) always fails with the allocation-limit
error, before any state is modified (the returned state is the untouched
input), and a subsequent `create` of a fitting size on the same arena
still succeeds. -/
theorem c3_oversized_rejected_atomically (stride : Nat) (v : α)
    (s : AllocState α) (wsz sz1 sz2 : Nat) (w1 w2 : β) (g : AllocState (Nat × β))
    (hs : s.cacheSize < stride) (h1 : g.cacheSize < wsz + sz1)
    (h2 : wsz + sz2 ≤ g.cacheSize) (hne : g.chain ≠ []) :
    Allocator.create stride v s = (s, .error .badAlloc) ∧
    Generic_allocator.create wsz sz1 w1 g = (g, .error .badAlloc) ∧
    (Generic_allocator.create wsz sz2 w2
        (Generic_allocator.create wsz sz1 w1 g).1).2.isOk = true := by
  have hgen : Generic_allocator.create wsz sz1 w1 g = (g, .error .badAlloc) := by
    rw [Generic_allocator.create_eq_create]
    simp only [Allocator.create]
    rw [if_pos (by omega)]
  refine ⟨?_, hgen, ?_⟩
  · simp only [Allocator.create]
    rw [if_pos (by omega)]
  · rw [hgen]
    rw [Generic_allocator.create_eq_create]
    rcases hc : g.chain with _ | ⟨c, rest⟩
    · exact absurd hc hne
    · simp only [Allocator.create, hc]
      rw [if_neg (by omega)]
      split <;> rfl

/-- Witness for `c3_oversized_rejected_atomically`: stride 3000 (typed) and
object size 3000 with wrapper 24 (generic) against the default 2048-byte
arenas, followed by a fitting size-8 generic `create`. -/
theorem c3_witness :
    Allocator.create 3000 () (Allocator.init Unit) =
        ((Allocator.init Unit), .error .badAlloc) ∧
      Generic_allocator.create 24 3000 () (Generic_allocator.init Unit) =
        ((Generic_allocator.init Unit), .error .badAlloc) ∧
      (Generic_allocator.create 24 8 ()
          (Generic_allocator.create 24 3000 ()
            (Generic_allocator.init Unit)).1).2.isOk = true :=
  c3_oversized_rejected_atomically 3000 () (Allocator.init Unit) 24 3000 8 () ()
    (Generic_allocator.init Unit) (by decide) (by decide) (by decide) (by decide)

/-- Claim C4 is contradicted by the code.  `~Allocator()` (and
`~Generic_allocator()`) is exactly `{ clear(); }`, and `clear` always
retains the oldest chunk, which nothing ever frees afterwards: destroying
a freshly constructed arena frees zero chunks and leaves its one chunk
allocated (chain length 1 after destruction, not 0 as the claim's "no
chunk remains allocated" requires). -/
theorem c4_destructor_leaks_oldest_chunk :
    (Allocator.destroy (Allocator.init Unit)).2.2.chain.length = 1 ∧
    (Allocator.destroy (Allocator.init Unit)).2.1 = 0 ∧
    (Generic_allocator.destroy (Generic_allocator.init Unit)).2.2.chain.length = 1 := by
  decide

/-- Claim C5.  In every state reachable through the public interface of
either variant: every chunk satisfies `start ≤ cursor ≤ end` and
`end − start == capacity` (stated through the address views, for every
base address), and exactly one chunk of the chain has a null `previous` —
namely the last, oldest one. -/
theorem c5_reachable_invariants (stride wsz : Nat)
    (s : AllocState α) (g : AllocState (Nat × β))
    (hs : Allocator.Reach stride s) (hg : Generic_allocator.Reach wsz g) :
    (s.chain ≠ [] ∧
      (∀ c ∈ s.chain, ∀ base : Nat,
        c.startAddr base ≤ c.cursorAddr base ∧
        c.cursorAddr base ≤ c.endAddr base ∧
        c.endAddr base - c.startAddr base = c.capacity) ∧
      s.chain.countP (fun c => c.prevNull) = 1 ∧
      ∀ cl, s.chain.getLast? = some cl → cl.prevNull = true) ∧
    (g.chain ≠ [] ∧
      (∀ c ∈ g.chain, ∀ base : Nat,
        c.startAddr base ≤ c.cursorAddr base ∧
        c.cursorAddr base ≤ c.endAddr base ∧
        c.endAddr base - c.startAddr base = c.capacity) ∧
      g.chain.countP (fun c => c.prevNull) = 1 ∧
      ∀ cl, g.chain.getLast? = some cl → cl.prevNull = true) := by
  have hi := Allocator.typed_inv_of_reach hs
  have hgi := Generic_allocator.generic_inv_of_reach hg
  refine ⟨⟨chainShapeOK_ne_nil hi.1, ?_, chainShapeOK_countP hi.1,
      fun cl hcl => chainShapeOK_getLast hi.1 hcl⟩,
    ⟨chainShapeOK_ne_nil hgi.1, ?_, chainShapeOK_countP hgi.1,
      fun cl hcl => chainShapeOK_getLast hgi.1 hcl⟩⟩
  · intro c hc base
    have hb := (hi.2 c hc).1
    simp only [Allocator_cache.startAddr, Allocator_cache.cursorAddr,
      Allocator_cache.endAddr]
    omega
  · intro c hc base
    have hb := (hgi.2 c hc).1
    simp only [Allocator_cache.startAddr, Allocator_cache.cursorAddr,
      Allocator_cache.endAddr]
    omega

/-- Witness for `c5_reachable_invariants` at the two freshly constructed
arenas. -/
theorem c5_witness :
    ((Allocator.init Unit).chain ≠ [] ∧
      (∀ c ∈ (Allocator.init Unit).chain, ∀ base : Nat,
        c.startAddr base ≤ c.cursorAddr base ∧
        c.cursorAddr base ≤ c.endAddr base ∧
        c.endAddr base - c.startAddr base = c.capacity) ∧
      (Allocator.init Unit).chain.countP (fun c => c.prevNull) = 1 ∧
      ∀ cl, (Allocator.init Unit).chain.getLast? = some cl → cl.prevNull = true) ∧
    ((Generic_allocator.init Unit).chain ≠ [] ∧
      (∀ c ∈ (Generic_allocator.init Unit).chain, ∀ base : Nat,
        c.startAddr base ≤ c.cursorAddr base ∧
        c.cursorAddr base ≤ c.endAddr base ∧
        c.endAddr base - c.startAddr base = c.capacity) ∧
      (Generic_allocator.init Unit).chain.countP (fun c => c.prevNull) = 1 ∧
      ∀ cl, (Generic_allocator.init Unit).chain.getLast? = some cl →
        cl.prevNull = true) :=
  c5_reachable_invariants 8 24 (Allocator.init Unit) (Generic_allocator.init Unit)
    Allocator.Reach.init Generic_allocator.Reach.init

/-- Claim C6, counterexample.  The constructors take no capacity argument:
construction always yields the fixed default capacity 2048, so it differs
from the spec-side `Arena(capacity)` constructor invoked at, say, 100. -/
theorem c6_counterexample :
    (Allocator.init Unit).chain.map (fun c => c.capacity) = [2048] ∧
    Allocator.init Unit ≠ arenaInitSpec Unit 100 := by
  decide

/-- Claim C6, amended.  No caller-specified capacity exists: `Allocator()`
and `Generic_allocator()` take no parameters, and every constructed arena
has the fixed default chunk capacity 2048 (`cache_size`'s in-class
initializer).  The code constructor coincides with the spec's
`Arena(capacity: size = default)` exactly at the default 2048. -/
theorem c6_fixed_default_capacity :
    Allocator.init Unit = arenaInitSpec Unit 2048 ∧
    Generic_allocator.init Unit = arenaInitSpec (Nat × Unit) 2048 ∧
    ∀ c : Nat, Allocator.init Unit = arenaInitSpec Unit c ↔ c = 2048 := by
  refine ⟨rfl, rfl, ?_⟩
  intro c
  constructor
  · intro h
    have := congrArg AllocState.cacheSize h
    simpa [Allocator.init, arenaInitSpec] using this.symm
  · intro h; subst h; rfl

/-- Claim C7 is contradicted by the code.  `Allocator_cache::construct`
never inspects the result of its single `malloc` call: when the system
allocator fails (`mallocResult = none`), the function returns the null
chunk pointer (`none`) to `create` as an ordinary value — it silently
continues with an invalid block (which `create` then dereferences) instead
of propagating an out-of-memory condition.  On success (`some addr`) a
chunk is returned, with no retry and no shrinking of the request. -/
theorem c7_malloc_failure_returns_null_chunk :
    Allocator_cache.construct Unit none 2048 true = none ∧
    (Allocator_cache.construct Unit (some 4096) 2048 true).isSome = true := by
  decide

/-- Claim C8, counterexample.  For a type of `sizeof 296 + alignof 4 = 300 >
255` the rejection is the `static_assert` in `Obj_wrapper`'s constructor
(a compile-time, template-instantiation failure), not a run-time
allocation-limit error: the run-time path of `Generic_allocator::create`
contains no 255-check and succeeds at object size 300 against the default
2048-byte capacity instead of failing like the capacity-overflow case. -/
theorem c8_counterexample :
    Obj_wrapper.staticAssertOk 296 4 = false ∧
    (Generic_allocator.create 24 300 () (Generic_allocator.init Unit)).2 =
      .ok (0, 0) :=
  ⟨rfl, rfl⟩

/-- Claim C8, amended.  Object sizes exceeding the one-byte field's maximum
255 are rejected at compile time by `Obj_wrapper`'s `static_assert`
(exactly when `sizeof + alignof > 255`); the only run-time allocation-limit
failure of the generic `create` is the capacity check
`sizeof_wrapper + sizeof_obj > cache_size`. -/
theorem c8_size_ceiling_is_compile_time (so ao wsz sz : Nat) (w : β)
    (g : AllocState (Nat × β)) (hne : g.chain ≠ []) :
    (Obj_wrapper.staticAssertOk so ao = false ↔ 255 < so + ao) ∧
    ((Generic_allocator.create wsz sz w g).2 = .error .badAlloc ↔
      g.cacheSize < wsz + sz) := by
  constructor
  · simp [Obj_wrapper.staticAssertOk]
  · rw [Generic_allocator.create_eq_create]
    rcases hc : g.chain with _ | ⟨c, rest⟩
    · exact absurd hc hne
    · simp only [Allocator.create, hc]
      constructor
      · intro h
        by_contra hnot
        rw [if_neg (by omega)] at h
        split at h <;> simp at h
      · intro h
        rw [if_pos (by omega)]

/-- Witness for `c8_size_ceiling_is_compile_time` at sizes 296 + 4 = 300,
wrapper 24, against the default generic arena. -/
theorem c8_witness :
    (Obj_wrapper.staticAssertOk 296 4 = false ↔ 255 < 296 + 4) ∧
      ((Generic_allocator.create 24 300 () (Generic_allocator.init Unit)).2 =
          .error .badAlloc ↔ (Generic_allocator.init Unit).cacheSize < 24 + 300) :=
  c8_size_ceiling_is_compile_time 296 4 24 300 () (Generic_allocator.init Unit)
    (by decide)

/-- Claim C9.  A successful `create` (typed or generic, growth or not)
changes no previously allocated slot and no existing chunk's
`start`/`end`/`previous` data: every previously readable slot pointer reads
back the same value afterwards, the returned pointer reads the new value,
and every pre-existing chunk (identified by its position from the oldest
end of the chain, which never changes) keeps its capacity and its
`previous`-nullness. -/
theorem c9_create_preserves_existing (stride wsz objsz : Nat) (v : α) (w : β)
    (s : AllocState α) (g : AllocState (Nat × β)) {s2 : AllocState α}
    {g2 : AllocState (Nat × β)} {p q : SlotPtr}
    (hs : Allocator.create stride v s = (s2, .ok p))
    (hg : Generic_allocator.create wsz objsz w g = (g2, .ok q)) :
    ((∀ r x, readSlot s r = some x → readSlot s2 r = some x) ∧
      readSlot s2 p = some v ∧
      ∀ i < s.chain.length,
        (s2.chain.reverse[i]?).map (fun c => (c.capacity, c.prevNull)) =
          (s.chain.reverse[i]?).map (fun c => (c.capacity, c.prevNull))) ∧
    ((∀ r x, readSlot g r = some x → readSlot g2 r = some x) ∧
      readSlot g2 q = some (objsz, w) ∧
      ∀ i < g.chain.length,
        (g2.chain.reverse[i]?).map (fun c => (c.capacity, c.prevNull)) =
          (g.chain.reverse[i]?).map (fun c => (c.capacity, c.prevNull))) := by
  have hgen : Allocator.create (wsz + objsz) (objsz, w) g = (g2, .ok q) := by
    rw [← Generic_allocator.create_eq_create]; exact hg
  exact ⟨Allocator.create_frame stride v hs,
    Allocator.create_frame (wsz + objsz) (objsz, w) hgen⟩

/-- Witness for `c9_create_preserves_existing` at the freshly constructed
arenas: a typed `create` of stride 8 and a generic `create` of wrapper 24
and object size 8, both returning pointer (0, 0). -/
theorem c9_witness :
    ((∀ r x, readSlot (Allocator.init Unit) r = some x →
        readSlot (Allocator.create 8 () (Allocator.init Unit)).1 r = some x) ∧
      readSlot (Allocator.create 8 () (Allocator.init Unit)).1 (0, 0) = some () ∧
      ∀ i < (Allocator.init Unit).chain.length,
        ((Allocator.create 8 () (Allocator.init Unit)).1.chain.reverse[i]?).map
            (fun c => (c.capacity, c.prevNull)) =
          ((Allocator.init Unit).chain.reverse[i]?).map
            (fun c => (c.capacity, c.prevNull))) ∧
    ((∀ r x, readSlot (Generic_allocator.init Unit) r = some x →
        readSlot (Generic_allocator.create 24 8 ()
          (Generic_allocator.init Unit)).1 r = some x) ∧
      readSlot (Generic_allocator.create 24 8 ()
          (Generic_allocator.init Unit)).1 (0, 0) = some (8, ()) ∧
      ∀ i < (Generic_allocator.init Unit).chain.length,
        ((Generic_allocator.create 24 8 ()
            (Generic_allocator.init Unit)).1.chain.reverse[i]?).map
            (fun c => (c.capacity, c.prevNull)) =
          ((Generic_allocator.init Unit).chain.reverse[i]?).map
            (fun c => (c.capacity, c.prevNull))) :=
  c9_create_preserves_existing 8 24 8 () () (Allocator.init Unit)
    (Generic_allocator.init Unit) rfl rfl

/-- Claim C10.  On a well-shaped arena (as all reachable ones are), a
second `clear` right after a `clear` destructs zero objects, frees zero
chunks, and returns the state unchanged; the state after the first `clear`
is one chunk with `cursor == start`, no live objects and a null
`previous` — for both variants. -/
theorem c10_clear_idempotent (s : AllocState α) (g : AllocState (Nat × β))
    (hs : chainShapeOK s.chain = true) (hg : chainShapeOK g.chain = true) :
    (Allocator.clear (Allocator.clear s).2.2 = ([], 0, (Allocator.clear s).2.2) ∧
      (Allocator.clear s).2.2.chain.length = 1 ∧
      ∀ c ∈ (Allocator.clear s).2.2.chain,
        c.used = 0 ∧ c.slots = [] ∧ c.prevNull = true) ∧
    (Generic_allocator.clear (Generic_allocator.clear g).2.2 =
        ([], 0, (Generic_allocator.clear g).2.2) ∧
      (Generic_allocator.clear g).2.2.chain.length = 1 ∧
      ∀ c ∈ (Generic_allocator.clear g).2.2.chain,
        c.used = 0 ∧ c.slots = [] ∧ c.prevNull = true) :=
  ⟨clear_clear_spec s hs, clear_clear_spec g hg⟩

/-- Witness for `c10_clear_idempotent` at the freshly constructed arenas. -/
theorem c10_witness :
    (Allocator.clear (Allocator.clear (Allocator.init Unit)).2.2 =
        ([], 0, (Allocator.clear (Allocator.init Unit)).2.2) ∧
      (Allocator.clear (Allocator.init Unit)).2.2.chain.length = 1 ∧
      ∀ c ∈ (Allocator.clear (Allocator.init Unit)).2.2.chain,
        c.used = 0 ∧ c.slots = [] ∧ c.prevNull = true) ∧
    (Generic_allocator.clear
          (Generic_allocator.clear (Generic_allocator.init Unit)).2.2 =
        ([], 0, (Generic_allocator.clear (Generic_allocator.init Unit)).2.2) ∧
      (Generic_allocator.clear (Generic_allocator.init Unit)).2.2.chain.length = 1 ∧
      ∀ c ∈ (Generic_allocator.clear (Generic_allocator.init Unit)).2.2.chain,
        c.used = 0 ∧ c.slots = [] ∧ c.prevNull = true) :=
  c10_clear_idempotent (Allocator.init Unit) (Generic_allocator.init Unit) rfl rfl

end SimpleAllocator
